import Mathlib

/-!
Verification of the DeAsync task-board system.

Part 1 embeds the on-chain registry `src/contracts/contracts/DeAsync.sol`:
addresses are `Nat` (0 is Solidity's `address(0)`, the "unclaimed" sentinel),
amounts are `Nat` (wei), the `tasks` and `balances` mappings are total
functions with Solidity's zero-initialised defaults, and each public function
becomes a Lean function returning `Except DErr ContractState` whose error
constructors mirror the `require` messages in source order.

Part 2 embeds the worker agent `src/node2-receiver/src/worker/task-claimer.js`:
the poll-loop tick `checkForAvailableTasks`, the claim and submit paths, and
the promise-chain nonce allocator.  Network responses (transaction outcomes,
wallet balance, the registry state at submission time) are inputs.
-/

namespace DeAsync

/-- `struct Task` from DeAsync.sol. -/
structure Task where
  id : Nat
  requester : Nat
  worker : Nat
  funcType : String
  data : String
  result : String
  completed : Bool
  reward : Nat
deriving Repr, DecidableEq

/-- Solidity's zero-initialised `Task` (value of `tasks[i]` before any write). -/
def defaultTask : Task := ⟨0, 0, 0, "", "", "", false, 0⟩

/-- Contract storage: `taskCount`, `mapping(uint => Task) tasks`,
`mapping(address => uint) balances`. -/
structure ContractState where
  taskCount : Nat
  tasks : Nat → Task
  balances : Nat → Nat

/-- Freshly deployed contract: count 0, all mappings zero-initialised. -/
def initState : ContractState :=
  { taskCount := 0, tasks := fun _ => defaultTask, balances := fun _ => 0 }

/-- The `require` failures of DeAsync.sol, one constructor per revert string. -/
inductive DErr where
  | invalidTaskId      -- "Invalid task ID"
  | alreadyClaimed     -- "Task already claimed"
  | alreadyCompleted   -- "Task already completed"
  | notAssignedWorker  -- "Not the assigned worker"
  | noBalance          -- "No balance to withdraw"
deriving Repr, DecidableEq

/-- `submitTask(funcType, data) payable`: increments `taskCount` and stores a
fresh task with `worker = address(0)`, `result = ""`, `completed = false`,
`reward = msg.value`. -/
def submitTask (s : ContractState) (sender : Nat) (funcType data : String)
    (value : Nat) : ContractState :=
  let n := s.taskCount + 1
  { taskCount := n
    tasks := Function.update s.tasks n
      { id := n, requester := sender, worker := 0, funcType := funcType
        data := data, result := "", completed := false, reward := value }
    balances := s.balances }

/-- `claimTask(taskId)`: requires `taskId <= taskCount`, `worker == address(0)`,
`!completed` (in that order), then sets `worker = msg.sender`. -/
def claimTask (s : ContractState) (sender taskId : Nat) :
    Except DErr ContractState :=
  if ¬ taskId ≤ s.taskCount then .error .invalidTaskId
  else if ¬ (s.tasks taskId).worker = 0 then .error .alreadyClaimed
  else if (s.tasks taskId).completed then .error .alreadyCompleted
  else .ok { s with
    tasks := Function.update s.tasks taskId
      { s.tasks taskId with worker := sender } }

/-- `submitResult(taskId, result)`: requires `taskId <= taskCount`,
`worker == msg.sender`, `!completed` (in that order); then stores the result,
sets `completed = true` and, when `reward > 0`, credits it to
`balances[msg.sender]` — all in the same transaction. -/
def submitResult (s : ContractState) (sender taskId : Nat) (result : String) :
    Except DErr ContractState :=
  if ¬ taskId ≤ s.taskCount then .error .invalidTaskId
  else if ¬ (s.tasks taskId).worker = sender then .error .notAssignedWorker
  else if (s.tasks taskId).completed then .error .alreadyCompleted
  else
    let t := s.tasks taskId
    .ok { s with
      tasks := Function.update s.tasks taskId
        { t with result := result, completed := true }
      balances :=
        if t.reward > 0 then
          Function.update s.balances sender (s.balances sender + t.reward)
        else s.balances }

/-- `withdrawBalance()`: requires `balances[msg.sender] > 0`, then zeroes the
balance (the external value transfer leaves the contract's storage model). -/
def withdrawBalance (s : ContractState) (sender : Nat) :
    Except DErr ContractState :=
  let amount := s.balances sender
  if ¬ amount > 0 then .error .noBalance
  else .ok { s with balances := Function.update s.balances sender 0 }

/-- `getLatestTasks(count)`: `start = taskCount > count ? taskCount-count+1 : 1`;
the array has length `taskCount >= start ? taskCount-start+1 : 0` and entry
`i - start` is `tasks[i]` for `i` from `start` to `taskCount`. -/
def getLatestTasks (s : ContractState) (count : Nat) : List Task :=
  let start := if s.taskCount > count then s.taskCount - count + 1 else 1
  let len := if s.taskCount ≥ start then s.taskCount - start + 1 else 0
  (List.range len).map (fun i => s.tasks (start + i))

/-- One externally submitted transaction against the registry. -/
inductive Op where
  | submitTask (sender : Nat) (funcType data : String) (value : Nat)
  | claimTask (sender taskId : Nat)
  | submitResult (sender taskId : Nat) (result : String)
  | withdrawBalance (sender : Nat)

/-- Apply one transaction; a reverted transaction leaves storage unchanged. -/
def applyOp (s : ContractState) : Op → ContractState
  | .submitTask sender f d v => submitTask s sender f d v
  | .claimTask sender tid =>
      match claimTask s sender tid with
      | .ok s' => s'
      | .error _ => s
  | .submitResult sender tid r =>
      match submitResult s sender tid r with
      | .ok s' => s'
      | .error _ => s
  | .withdrawBalance sender =>
      match withdrawBalance s sender with
      | .ok s' => s'
      | .error _ => s

/-- Apply a sequence of transactions in order (the chain serialises them). -/
def applyOps (s : ContractState) (ops : List Op) : ContractState :=
  ops.foldl applyOp s

/-- States reachable from a fresh deployment by some transaction history. -/
def Reachable (s : ContractState) : Prop :=
  ∃ ops : List Op, applyOps initState ops = s

/-!
Part 2: the worker agent (`task-claimer.js`).

JavaScript is single-threaded: the only interleaving points are `await`s, and
`_getNextNonce` wraps its read-increment of `nextNonce` in a promise-chain
mutex, so every nonce allocation and every `_refreshNonce` executes as an
atomic step even under overlapping async calls.  The embedding therefore
models the allocator as atomic state transitions.  Each outgoing transaction's
network response is an `Env` input: the wallet balance the agent reads, the
chain's transaction count (what `getTransactionCount` would return), the
registry's state of the task at submission time (available to the agent,
whether or not the code reads it), and the outcome of each transaction.
`pendingTransactions` is write-then-delete bookkeeping read only by the
statistics reporter, so it is not part of the verified state.
-/

/-- Worker-local mutable state of `TaskClaimer` used by the poll loop:
`lastProcessedTaskId`, the `claimedTasks` map (modelled by its key set), and
the `nextNonce` counter (`null` before first use). -/
structure AgentState where
  lastProcessedTaskId : Nat
  claimedTasks : List Nat
  nextNonce : Option Nat
deriving Repr, DecidableEq

/-- Result of awaiting a submitted transaction: confirmed, rejected with a
nonce-ordering error (`NONCE_EXPIRED` / "nonce too low" / "nonce has already
been used"), or failed for any other reason. -/
inductive TxOutcome where
  | confirmed
  | nonceError
  | failed
deriving Repr, DecidableEq

/-- The network's responses for one task's handling within a tick. -/
structure Env where
  balanceWei : Nat
  chainNonce : Nat
  registryTask : Task
  claimOutcome : TxOutcome
  submitOutcome : TxOutcome
  execOk : Bool

/-- A transaction the agent sends to the registry during a tick. -/
inductive AgentAction where
  | claimTx (taskId nonce : Nat)
  | submitTx (taskId nonce : Nat)
deriving Repr, DecidableEq

/-- `_getNextNonce()`: inside the mutex, lazily seed `nextNonce` from the
chain's transaction count, then return `nextNonce++`. -/
def getNextNonce (chainNonce : Nat) (st : AgentState) : Nat × AgentState :=
  match st.nextNonce with
  | none => (chainNonce, { st with nextNonce := some (chainNonce + 1) })
  | some n => (n, { st with nextNonce := some (n + 1) })

/-- `_refreshNonce()`: reset `nextNonce` to the chain's transaction count. -/
def refreshNonce (chainNonce : Nat) (st : AgentState) : AgentState :=
  { st with nextNonce := some chainNonce }

/-- `0.005` ether in wei: `attemptClaimTask` skips claiming below this wallet
balance (the source compares `parseFloat(formatEther(balance)) < 0.005`;
double rounding is immaterial at this magnitude). -/
def claimThresholdWei : Nat := 5000000000000000

/-- `attemptClaimTask(taskId)`: abort if the wallet balance is under the
threshold; otherwise allocate a nonce and send `claimTask`.  On confirmation
record the task in `claimedTasks`; on a nonce error refresh the nonce and
leave the rest for the next polling cycle; on any other error just log.
Note the function never reads `env.registryTask`. -/
def attemptClaimTask (env : Env) (st : AgentState) (taskId : Nat) :
    AgentState × List AgentAction :=
  if env.balanceWei < claimThresholdWei then (st, [])
  else
    let p := getNextNonce env.chainNonce st
    match env.claimOutcome with
    | .confirmed =>
        ({ p.2 with claimedTasks := p.2.claimedTasks.insert taskId },
         [.claimTx taskId p.1])
    | .nonceError => (refreshNonce env.chainNonce p.2, [.claimTx taskId p.1])
    | .failed => (p.2, [.claimTx taskId p.1])

/-- `submitTaskResult(taskId, result)`: allocate a nonce and send
`submitResult`.  On confirmation delete the task from `claimedTasks`; on a
nonce error refresh the nonce and keep the task in `claimedTasks` ("retry on
next cycle"); on any other error just log. -/
def submitTaskResult (env : Env) (st : AgentState) (taskId : Nat) :
    AgentState × List AgentAction :=
  let p := getNextNonce env.chainNonce st
  match env.submitOutcome with
  | .confirmed =>
      ({ p.2 with claimedTasks := p.2.claimedTasks.erase taskId },
       [.submitTx taskId p.1])
  | .nonceError => (refreshNonce env.chainNonce p.2, [.submitTx taskId p.1])
  | .failed => (p.2, [.submitTx taskId p.1])

/-- `executeClaimedTask(taskId, task)`: run the executor; on success submit
the result, on executor failure log and drop. -/
def executeClaimedTask (env : Env) (st : AgentState) (taskId : Nat) :
    AgentState × List AgentAction :=
  if env.execOk then submitTaskResult env st taskId else (st, [])

/-- The body of the `for (const task of latestTasks)` loop in
`checkForAvailableTasks`, for one task snapshot `t`:
skip ids at or below the high-water mark; advance past tasks completed or
claimed by another worker; skip (without advancing) tasks in `claimedTasks`;
otherwise attempt a claim if the snapshot shows the task unclaimed, execute
it if the snapshot shows it ours, and then advance
`lastProcessedTaskId = max(lastProcessedTaskId, task.id)`. -/
def processTask (self : Nat) (env : Nat → Env) (st : AgentState) (t : Task) :
    AgentState × List AgentAction :=
  let taskId := t.id
  if taskId ≤ st.lastProcessedTaskId then (st, [])
  else if t.completed = true ∨ (t.worker ≠ 0 ∧ t.worker ≠ self) then
    ({ st with lastProcessedTaskId := max st.lastProcessedTaskId taskId }, [])
  else if taskId ∈ st.claimedTasks then (st, [])
  else
    let p1 :=
      if t.worker = 0 ∧ t.completed = false then
        attemptClaimTask (env taskId) st taskId
      else (st, [])
    let p2 :=
      if t.worker = self ∧ t.completed = false then
        executeClaimedTask (env taskId) p1.1 taskId
      else (p1.1, [])
    ({ p2.1 with lastProcessedTaskId := max p2.1.lastProcessedTaskId taskId },
     p1.2 ++ p2.2)

/-- One poll tick over the window returned by `getLatestTasks(5)`. -/
def checkForAvailableTasks (self : Nat) (env : Nat → Env) (st : AgentState)
    (tasks : List Task) : AgentState × List AgentAction :=
  tasks.foldl (fun acc t =>
    let p := processTask self env acc.1 t
    (p.1, acc.2 ++ p.2)) (st, [])

/-- `k` back-to-back `_getNextNonce()` calls (already serialised by the
mutex), returning the allocated values in order. -/
def allocSeq (chainNonce : Nat) (st : AgentState) : Nat → List Nat × AgentState
  | 0 => ([], st)
  | k + 1 =>
      let p := getNextNonce chainNonce st
      let q := allocSeq chainNonce p.2 k
      (p.1 :: q.1, q.2)

/-- Sequential execution of one claim attempt per sender against a fixed task
id (the chain serialises competing claims); records `none` for a success and
the revert reason for a failure. -/
def runClaims (s : ContractState) (tid : Nat) :
    List Nat → ContractState × List (Option DErr)
  | [] => (s, [])
  | sender :: rest =>
    match claimTask s sender tid with
    | .ok s' => let p := runClaims s' tid rest; (p.1, none :: p.2)
    | .error e => let p := runClaims s tid rest; (p.1, some e :: p.2)

/-- Storage invariant of DeAsync: slots above `taskCount` are still
zero-initialised, and every created task records its own id. -/
def Inv (s : ContractState) : Prop :=
  (∀ i, s.taskCount < i → s.tasks i = defaultTask) ∧
  (∀ i, 1 ≤ i → i ≤ s.taskCount → (s.tasks i).id = i)

theorem inv_initState : Inv initState := by
  refine ⟨fun i _ => rfl, fun i h1 h2 => ?_⟩
  simp [initState] at h2
  omega

theorem claimTask_ok_inv {s s' : ContractState} {sender tid : Nat}
    (h : claimTask s sender tid = .ok s') :
    tid ≤ s.taskCount ∧ (s.tasks tid).worker = 0 ∧
    (s.tasks tid).completed = false ∧
    s' = { s with tasks :=
            Function.update s.tasks tid ({ s.tasks tid with worker := sender }) } := by
  unfold claimTask at h
  split at h
  · exact Except.noConfusion h
  · split at h
    · exact Except.noConfusion h
    · split at h
      · exact Except.noConfusion h
      · rename_i h1 h2 h3
        exact ⟨by simpa using h1, by simpa using h2, by simpa using h3,
          (Except.ok.injEq _ _).mp h |>.symm⟩

theorem submitResult_ok_inv {s s' : ContractState} {sender tid : Nat}
    {r : String} (h : submitResult s sender tid r = .ok s') :
    tid ≤ s.taskCount ∧ (s.tasks tid).worker = sender ∧
    (s.tasks tid).completed = false ∧
    s' = { s with
      tasks :=
        Function.update s.tasks tid
          ({ s.tasks tid with result := r, completed := true })
      balances :=
        if (s.tasks tid).reward > 0 then
          Function.update s.balances sender
            (s.balances sender + (s.tasks tid).reward)
        else s.balances } := by
  unfold submitResult at h
  split at h
  · exact Except.noConfusion h
  · split at h
    · exact Except.noConfusion h
    · split at h
      · exact Except.noConfusion h
      · rename_i h1 h2 h3
        exact ⟨by simpa using h1, by simpa using h2, by simpa using h3,
          (Except.ok.injEq _ _).mp h |>.symm⟩

theorem withdrawBalance_ok_inv {s s' : ContractState} {sender : Nat}
    (h : withdrawBalance s sender = .ok s') :
    s.balances sender > 0 ∧
    s' = { s with balances := Function.update s.balances sender 0 } := by
  simp only [withdrawBalance] at h
  split at h
  · exact Except.noConfusion h
  · rename_i h1
    exact ⟨Nat.pos_of_ne_zero (by simpa using h1),
      (Except.ok.injEq _ _).mp h |>.symm⟩

theorem inv_applyOp {s : ContractState} (hs : Inv s) (op : Op) :
    Inv (applyOp s op) := by
  obtain ⟨h1, h2⟩ := hs
  cases op with
  | submitTask sender f d v =>
      refine ⟨fun i hi => ?_, fun i hi1 hi2 => ?_⟩
      · simp only [applyOp, submitTask] at hi ⊢
        rw [Function.update_noteq (by omega)]
        exact h1 i (by omega)
      · simp only [applyOp, submitTask] at hi2 ⊢
        by_cases hieq : i = s.taskCount + 1
        · subst hieq; simp
        · rw [Function.update_noteq hieq]
          exact h2 i hi1 (by omega)
  | claimTask sender tid =>
      simp only [applyOp]
      split
      · rename_i s' hok
        obtain ⟨hle, _, _, rfl⟩ := claimTask_ok_inv hok
        refine ⟨fun i hi => ?_, fun i hi1 hi2 => ?_⟩
        · simp only at hi ⊢
          rw [Function.update_noteq (by omega)]
          exact h1 i hi
        · simp only at hi2 ⊢
          by_cases hieq : i = tid
          · subst hieq; simp only [Function.update_same]
            exact h2 i hi1 hi2
          · rw [Function.update_noteq hieq]; exact h2 i hi1 hi2
      · exact ⟨h1, h2⟩
  | submitResult sender tid r =>
      simp only [applyOp]
      split
      · rename_i s' hok
        obtain ⟨hle, _, _, rfl⟩ := submitResult_ok_inv hok
        refine ⟨fun i hi => ?_, fun i hi1 hi2 => ?_⟩
        · simp only at hi ⊢
          rw [Function.update_noteq (by omega)]
          exact h1 i hi
        · simp only at hi2 ⊢
          by_cases hieq : i = tid
          · subst hieq; simp only [Function.update_same]
            exact h2 i hi1 hi2
          · rw [Function.update_noteq hieq]; exact h2 i hi1 hi2
      · exact ⟨h1, h2⟩
  | withdrawBalance sender =>
      simp only [applyOp]
      split
      · rename_i s' hok
        obtain ⟨_, rfl⟩ := withdrawBalance_ok_inv hok
        exact ⟨h1, h2⟩
      · exact ⟨h1, h2⟩

theorem inv_applyOps {s : ContractState} (hs : Inv s) (ops : List Op) :
    Inv (applyOps s ops) := by
  induction ops generalizing s with
  | nil => exact hs
  | cons op rest ih => exact ih (inv_applyOp hs op)

theorem reachable_inv {s : ContractState} (hs : Reachable s) : Inv s := by
  obtain ⟨ops, rfl⟩ := hs
  exact inv_applyOps inv_initState ops

theorem claimed_le_taskCount {s : ContractState} {tid : Nat} (hs : Inv s)
    (hw : (s.tasks tid).worker ≠ 0) : tid ≤ s.taskCount := by
  by_contra hgt
  exact hw (by rw [hs.1 tid (by omega)]; rfl)

/-- Once a task's `worker` is non-zero, `claimTask` reverts with
"Task already claimed". -/
theorem claimTask_already {s : ContractState} {tid : Nat} (sender : Nat)
    (hle : tid ≤ s.taskCount) (hw : (s.tasks tid).worker ≠ 0) :
    claimTask s sender tid = .error .alreadyClaimed := by
  unfold claimTask
  rw [if_neg (not_not_intro hle), if_pos hw]

/-- No single transaction changes a non-zero `worker` field. -/
theorem worker_persist_op {s : ContractState} {tid : Nat} (hs : Inv s)
    (hw : (s.tasks tid).worker ≠ 0) (op : Op) :
    ((applyOp s op).tasks tid).worker = (s.tasks tid).worker := by
  have hle : tid ≤ s.taskCount := claimed_le_taskCount hs hw
  cases op with
  | submitTask sender f d v =>
      simp only [applyOp, submitTask]
      rw [Function.update_noteq (by omega)]
  | claimTask sender tid' =>
      simp only [applyOp]
      split
      · rename_i s' hok
        obtain ⟨_, hw0, _, rfl⟩ := claimTask_ok_inv hok
        have hne : tid ≠ tid' := fun he => hw (he ▸ hw0)
        simp only
        rw [Function.update_noteq hne]
      · rfl
  | submitResult sender tid' r =>
      simp only [applyOp]
      split
      · rename_i s' hok
        obtain ⟨_, _, _, rfl⟩ := submitResult_ok_inv hok
        simp only
        by_cases he : tid = tid'
        · subst he; rw [Function.update_same]
        · rw [Function.update_noteq he]
      · rfl
  | withdrawBalance sender =>
      simp only [applyOp]
      split
      · rename_i s' hok
        obtain ⟨_, rfl⟩ := withdrawBalance_ok_inv hok
        rfl
      · rfl

/-- No transaction history changes a non-zero `worker` field. -/
theorem worker_persist_ops {s : ContractState} {tid : Nat} (hs : Inv s)
    (hw : (s.tasks tid).worker ≠ 0) (ops : List Op) :
    ((applyOps s ops).tasks tid).worker = (s.tasks tid).worker := by
  induction ops generalizing s with
  | nil => rfl
  | cons op rest ih =>
      have hstep := worker_persist_op hs hw op
      have := ih (inv_applyOp hs op) (hstep ▸ hw)
      simpa [applyOps, hstep] using this

/-- Every claim in a race against an already-claimed task is rejected with
"Task already claimed" and the state does not move. -/
theorem runClaims_all_rejected {s : ContractState} {tid : Nat}
    (hle : tid ≤ s.taskCount) (hw : (s.tasks tid).worker ≠ 0)
    (senders : List Nat) :
    runClaims s tid senders =
      (s, List.replicate senders.length (some DErr.alreadyClaimed)) := by
  induction senders with
  | nil => rfl
  | cons sender rest ih =>
      simp only [runClaims, claimTask_already sender hle hw, ih,
        List.length_cons, List.replicate_succ]

/-- An unclaimed, uncompleted, in-range task is claimed by setting its
`worker` to the sender. -/
theorem claimTask_succeeds {s : ContractState} {tid : Nat} (sender : Nat)
    (hle : tid ≤ s.taskCount) (hw : (s.tasks tid).worker = 0)
    (hc : (s.tasks tid).completed = false) :
    claimTask s sender tid = .ok ({ s with tasks := Function.update s.tasks tid ({ s.tasks tid with worker := sender }) }) := by
  unfold claimTask
  rw [if_neg (not_not_intro hle), if_neg (not_not_intro hw),
    if_neg (by simp [hc])]

/-- Claim C1.  At most one claim ever succeeds per task: (a) in any reachable
state where a task's `worker` is non-zero, every further `claimTask` on it
reverts with "Task already claimed" and no transaction history ever changes
the `worker` field again; (b) when N claim attempts race for one unclaimed,
uncompleted task (the chain serialises them), the first wins and the other
N−1 are rejected with the distinguishable "Task already claimed" revert. -/
theorem claim_uniqueness :
    (∀ s : ContractState, Reachable s → ∀ tid : Nat,
        (s.tasks tid).worker ≠ 0 →
        (∀ sender, claimTask s sender tid = .error .alreadyClaimed) ∧
        (∀ ops, ((applyOps s ops).tasks tid).worker = (s.tasks tid).worker)) ∧
    (∀ (s : ContractState) (tid sender : Nat) (rest : List Nat),
        tid ≤ s.taskCount → (s.tasks tid).worker = 0 →
        (s.tasks tid).completed = false → sender ≠ 0 →
        (runClaims s tid (sender :: rest)).2 =
          none :: List.replicate rest.length (some DErr.alreadyClaimed) ∧
        ((runClaims s tid (sender :: rest)).1.tasks tid).worker = sender) := by
  constructor
  · intro s hreach tid hw
    have hinv := reachable_inv hreach
    exact ⟨fun sender =>
        claimTask_already sender (claimed_le_taskCount hinv hw) hw,
      fun ops => worker_persist_ops hinv hw ops⟩
  · intro s tid sender rest hle hw hc hsender
    have hstep := claimTask_succeeds sender hle hw hc
    have hw' : (({ s with tasks := Function.update s.tasks tid ({ s.tasks tid with worker := sender }) } : ContractState).tasks tid).worker = sender := by
      simp
    have hrest := runClaims_all_rejected
      (show tid ≤ ({ s with tasks := Function.update s.tasks tid ({ s.tasks tid with worker := sender }) } : ContractState).taskCount from hle)
      (by rw [hw']; exact hsender) rest
    simp only [runClaims, hstep, hrest]
    exact ⟨trivial, hw'⟩

/-- Witness for C1 at concrete inputs: after worker 7 claims the only task,
worker 8's claim reverts with "Task already claimed", later transactions keep
`worker = 7`, and a serialised race of workers 7, 8, 9 for a fresh task
produces exactly one success followed by two "already claimed" rejections. -/
theorem claim_uniqueness_witness :
    ((applyOps initState
        [Op.submitTask 10 "f" "x" 5, Op.claimTask 7 1]).tasks 1).worker ≠ 0 ∧
    claimTask (applyOps initState
        [Op.submitTask 10 "f" "x" 5, Op.claimTask 7 1]) 8 1 =
      .error .alreadyClaimed ∧
    ((applyOps (applyOps initState
        [Op.submitTask 10 "f" "x" 5, Op.claimTask 7 1])
        [Op.submitResult 7 1 "84", Op.withdrawBalance 7]).tasks 1).worker =
      ((applyOps initState
        [Op.submitTask 10 "f" "x" 5, Op.claimTask 7 1]).tasks 1).worker ∧
    (runClaims (applyOps initState [Op.submitTask 10 "f" "x" 5]) 1
        [7, 8, 9]).2 =
      [none, some DErr.alreadyClaimed, some DErr.alreadyClaimed] ∧
    ((runClaims (applyOps initState [Op.submitTask 10 "f" "x" 5]) 1
        [7, 8, 9]).1.tasks 1).worker = 7 := by
  have h := claim_uniqueness
  have hw : ((applyOps initState
      [Op.submitTask 10 "f" "x" 5, Op.claimTask 7 1]).tasks 1).worker ≠ 0 := by
    decide
  have h2 := h.2 (applyOps initState [Op.submitTask 10 "f" "x" 5]) 1 7 [8, 9]
    (by decide) (by decide) (by decide) (by decide)
  exact ⟨hw, (h.1 _ ⟨_, rfl⟩ 1 hw).1 8,
    (h.1 _ ⟨_, rfl⟩ 1 hw).2 [Op.submitResult 7 1 "84", Op.withdrawBalance 7],
    h2.1, h2.2⟩

/-- Whether a `claimTask` call succeeds (does not revert). -/
def claimSucceeds (s : ContractState) (sender taskId : Nat) : Bool :=
  match claimTask s sender taskId with
  | .ok _ => true
  | .error _ => false

/-- Counterexample to C2 as stated: task id 0 is outside the 1-based dense id
space, yet `claimTask(0)` does not revert with `InvalidTaskId` — the contract
only checks `taskId <= taskCount`, so on a fresh registry (`taskCount == 0`)
claiming id 0 succeeds against the zero-initialised slot. -/
theorem claimTask_zero_id_accepted : claimSucceeds initState 1 0 = true := by
  rfl

/-- Claim C2 (amended): `claimTask(taskId)` reverts with `InvalidTaskId`
whenever `taskId > taskCount` (ids below the 1-based range, i.e. id 0, are
not rejected), with `AlreadyClaimed` when the task's worker is already set,
with `AlreadyCompleted` when the task is finished, and otherwise succeeds by
setting the task's worker to the caller; in particular claiming id 999 on a
registry with `taskCount() == 1` reverts with `InvalidTaskId`. -/
theorem claimTask_cases :
    (∀ (s : ContractState) (sender tid : Nat),
      (s.taskCount < tid → claimTask s sender tid = .error .invalidTaskId) ∧
      (tid ≤ s.taskCount → (s.tasks tid).worker ≠ 0 →
        claimTask s sender tid = .error .alreadyClaimed) ∧
      (tid ≤ s.taskCount → (s.tasks tid).worker = 0 →
        (s.tasks tid).completed = true →
        claimTask s sender tid = .error .alreadyCompleted) ∧
      (tid ≤ s.taskCount → (s.tasks tid).worker = 0 →
        (s.tasks tid).completed = false →
        claimTask s sender tid = .ok ({ s with tasks := Function.update s.tasks tid ({ s.tasks tid with worker := sender }) }))) ∧
    claimTask (applyOps initState [Op.submitTask 10 "f" "x" 5]) 7 999 =
      .error .invalidTaskId := by
  refine ⟨fun s sender tid => ⟨fun hgt => ?_, fun hle hw => ?_,
    fun hle hw hc => ?_, fun hle hw hc => ?_⟩, by rfl⟩
  · unfold claimTask
    rw [if_pos (by omega)]
  · exact claimTask_already sender hle hw
  · unfold claimTask
    rw [if_neg (not_not_intro hle), if_neg (not_not_intro hw), if_pos hc]
  · exact claimTask_succeeds sender hle hw hc

/-- Witness for C2 (amended) at concrete inputs: id 999 against a one-task
registry reverts with `InvalidTaskId`; re-claiming a claimed task reverts
with `AlreadyClaimed`; claiming a completed task reverts with
`AlreadyCompleted`; claiming the fresh task succeeds. -/
theorem claimTask_cases_witness :
    claimTask (applyOps initState [Op.submitTask 10 "f" "x" 5]) 7 999 =
      .error .invalidTaskId ∧
    claimTask (applyOps initState
        [Op.submitTask 10 "f" "x" 5, Op.claimTask 7 1]) 8 1 =
      .error .alreadyClaimed ∧
    claimTask (⟨1, fun _ => Task.mk 1 10 0 "f" "x" "r" true 5,
        fun _ => 0⟩ : ContractState) 8 1 = .error .alreadyCompleted ∧
    claimSucceeds (applyOps initState [Op.submitTask 10 "f" "x" 5]) 7 1 =
      true := by
  have h := claimTask_cases
  refine ⟨h.2, (h.1 _ 8 1).2.1 (by decide) (by decide), ?_, ?_⟩
  · exact (h.1 _ 8 1).2.2.1 (by decide) (by decide) (by decide)
  · have := (h.1 (applyOps initState [Op.submitTask 10 "f" "x" 5]) 7 1).2.2.2
      (by decide) (by decide) (by decide)
    simp [claimSucceeds, this]

/-- Claim C10.  A successful `claimTask` changes only the claimed task's
`worker` field: `taskCount`, every balance, every other task, and the claimed
task's `id`, `requester`, `funcType`, `data`, `result`, `completed` and
`reward` fields are unchanged. -/
theorem claimTask_frame :
    ∀ (s s' : ContractState) (sender tid : Nat),
      claimTask s sender tid = .ok s' →
      s'.taskCount = s.taskCount ∧
      (∀ a, s'.balances a = s.balances a) ∧
      (∀ j, j ≠ tid → s'.tasks j = s.tasks j) ∧
      (s'.tasks tid).worker = sender ∧
      (s'.tasks tid).id = (s.tasks tid).id ∧
      (s'.tasks tid).requester = (s.tasks tid).requester ∧
      (s'.tasks tid).funcType = (s.tasks tid).funcType ∧
      (s'.tasks tid).data = (s.tasks tid).data ∧
      (s'.tasks tid).result = (s.tasks tid).result ∧
      (s'.tasks tid).completed = (s.tasks tid).completed ∧
      (s'.tasks tid).reward = (s.tasks tid).reward := by
  intro s s' sender tid h
  obtain ⟨_, _, _, rfl⟩ := claimTask_ok_inv h
  refine ⟨rfl, fun a => rfl, fun j hj => ?_, ?_, ?_, ?_, ?_, ?_, ?_, ?_, ?_⟩
  · simp only
    rw [Function.update_noteq hj]
  all_goals simp

/-- Witness for C10: worker 7 claims task 1 of a two-task registry; only that
task's `worker` changes. -/
theorem claimTask_frame_witness :
    claimSucceeds (applyOps initState
      [Op.submitTask 10 "f" "x" 5, Op.submitTask 11 "g" "y" 6]) 7 1 = true ∧
    ((applyOps initState
      [Op.submitTask 10 "f" "x" 5, Op.submitTask 11 "g" "y" 6,
       Op.claimTask 7 1]).tasks 2 =
     (applyOps initState
      [Op.submitTask 10 "f" "x" 5, Op.submitTask 11 "g" "y" 6]).tasks 2) ∧
    ((applyOps initState
      [Op.submitTask 10 "f" "x" 5, Op.submitTask 11 "g" "y" 6,
       Op.claimTask 7 1]).tasks 1).worker = 7 ∧
    ((applyOps initState
      [Op.submitTask 10 "f" "x" 5, Op.submitTask 11 "g" "y" 6,
       Op.claimTask 7 1]).tasks 1).reward =
    ((applyOps initState
      [Op.submitTask 10 "f" "x" 5, Op.submitTask 11 "g" "y" 6]).tasks
        1).reward := by
  have hok : claimTask (applyOps initState
      [Op.submitTask 10 "f" "x" 5, Op.submitTask 11 "g" "y" 6]) 7 1 =
      .ok (applyOps initState
        [Op.submitTask 10 "f" "x" 5, Op.submitTask 11 "g" "y" 6,
         Op.claimTask 7 1]) := by
    rfl
  have h := claimTask_frame _ _ 7 1 hok
  exact ⟨by simp [claimSucceeds, hok], h.2.2.1 2 (by decide), h.2.2.2.1,
    h.2.2.2.2.2.2.2.2.2.2⟩

/-- An in-range task assigned to the sender and not yet completed is
completed: the result is stored, `completed` is set, and the reward (when
positive) is credited, all in one transition. -/
theorem submitResult_succeeds {s : ContractState} {tid : Nat} (sender : Nat)
    (r : String) (hle : tid ≤ s.taskCount)
    (hw : (s.tasks tid).worker = sender)
    (hc : (s.tasks tid).completed = false) :
    submitResult s sender tid r = .ok ({ s with tasks := Function.update s.tasks tid ({ s.tasks tid with result := r, completed := true }), balances := if (s.tasks tid).reward > 0 then Function.update s.balances sender (s.balances sender + (s.tasks tid).reward) else s.balances }) := by
  unfold submitResult
  rw [if_neg (not_not_intro hle), if_neg (not_not_intro hw),
    if_neg (by simp [hc])]

/-- Counterexample to C3 as stated: task id 0 is outside the 1-based dense
id space, yet `submitResult(0, ...)` does not revert with `InvalidTaskId` —
the contract only checks `taskId <= taskCount`, which id 0 always passes, so
the call falls through to the worker check and reverts with "Not the
assigned worker" instead. -/
theorem submitResult_zero_id_not_invalid :
    submitResult initState 1 0 "r" = .error .notAssignedWorker ∧
    DErr.notAssignedWorker ≠ DErr.invalidTaskId := by
  exact ⟨rfl, by decide⟩

/-- Claim C3 (amended).  `submitResult(taskId, result)` reverts with
`InvalidTaskId` whenever `taskId > taskCount` (ids below the 1-based range,
i.e. id 0, are not rejected by the bound check: they fall through to the
worker check, reverting `NotAssignedWorker` for any caller other than the
zero-initialised worker), with `NotAssignedWorker` when the caller is not
the task's assigned worker, with `AlreadyCompleted` when the task is already
completed; on success (one atomic state transition, so there is no
intermediate state) the produced state has the task's `result` set,
`completed = true`, and the escrowed reward credited to the caller's
balance. -/
theorem submitResult_cases :
    ∀ (s : ContractState) (sender tid : Nat) (r : String),
      (s.taskCount < tid →
        submitResult s sender tid r = .error .invalidTaskId) ∧
      (tid ≤ s.taskCount → (s.tasks tid).worker ≠ sender →
        submitResult s sender tid r = .error .notAssignedWorker) ∧
      (tid ≤ s.taskCount → (s.tasks tid).worker = sender →
        (s.tasks tid).completed = true →
        submitResult s sender tid r = .error .alreadyCompleted) ∧
      (tid ≤ s.taskCount → (s.tasks tid).worker = sender →
        (s.tasks tid).completed = false →
        ∃ s', submitResult s sender tid r = .ok s') ∧
      (∀ s', submitResult s sender tid r = .ok s' →
        (s'.tasks tid).result = r ∧ (s'.tasks tid).completed = true ∧
        s'.balances sender = s.balances sender + (s.tasks tid).reward) := by
  intro s sender tid r
  refine ⟨fun hgt => ?_, fun hle hw => ?_, fun hle hw hc => ?_,
    fun hle hw hc => ⟨_, submitResult_succeeds sender r hle hw hc⟩,
    fun s' h => ?_⟩
  · unfold submitResult
    rw [if_pos (by omega)]
  · unfold submitResult
    rw [if_neg (not_not_intro hle), if_pos hw]
  · unfold submitResult
    rw [if_neg (not_not_intro hle), if_neg (not_not_intro hw), if_pos hc]
  · obtain ⟨_, _, _, rfl⟩ := submitResult_ok_inv h
    refine ⟨by simp, by simp, ?_⟩
    by_cases hr : (s.tasks tid).reward > 0
    · simp [hr]
    · simp only [hr, if_false]
      omega

/-- Witness for C3 at concrete inputs: against a one-task registry claimed by
worker 7, id 999 reverts `InvalidTaskId`, worker 8 reverts
`NotAssignedWorker`, resubmission after completion reverts
`AlreadyCompleted`, and the successful submission stores "84", completes the
task and credits the escrowed reward 5 to worker 7. -/
theorem submitResult_cases_witness :
    submitResult (applyOps initState
        [Op.submitTask 10 "f" "x" 5, Op.claimTask 7 1]) 7 999 "r" =
      .error .invalidTaskId ∧
    submitResult (applyOps initState
        [Op.submitTask 10 "f" "x" 5, Op.claimTask 7 1]) 8 1 "r" =
      .error .notAssignedWorker ∧
    submitResult (applyOps initState
        [Op.submitTask 10 "f" "x" 5, Op.claimTask 7 1,
         Op.submitResult 7 1 "84"]) 7 1 "x" = .error .alreadyCompleted ∧
    ((applyOps initState
        [Op.submitTask 10 "f" "x" 5, Op.claimTask 7 1,
         Op.submitResult 7 1 "84"]).tasks 1).result = "84" ∧
    ((applyOps initState
        [Op.submitTask 10 "f" "x" 5, Op.claimTask 7 1,
         Op.submitResult 7 1 "84"]).tasks 1).completed = true ∧
    (applyOps initState
        [Op.submitTask 10 "f" "x" 5, Op.claimTask 7 1,
         Op.submitResult 7 1 "84"]).balances 7 =
      (applyOps initState
        [Op.submitTask 10 "f" "x" 5, Op.claimTask 7 1]).balances 7 +
      ((applyOps initState
        [Op.submitTask 10 "f" "x" 5, Op.claimTask 7 1]).tasks 1).reward := by
  have h := submitResult_cases
  have hok : submitResult (applyOps initState
      [Op.submitTask 10 "f" "x" 5, Op.claimTask 7 1]) 7 1 "84" =
      .ok (applyOps initState
        [Op.submitTask 10 "f" "x" 5, Op.claimTask 7 1,
         Op.submitResult 7 1 "84"]) := by rfl
  have heff := (h (applyOps initState
      [Op.submitTask 10 "f" "x" 5, Op.claimTask 7 1]) 7 1 "84").2.2.2.2 _ hok
  exact ⟨(h _ 7 999 "r").1 (by decide),
    (h _ 8 1 "r").2.1 (by decide) (by decide),
    (h _ 7 1 "x").2.2.1 (by decide) (by decide) (by decide),
    heff.1, heff.2.1, heff.2.2⟩

/-- Sequentially complete a list of (taskId, result) jobs as worker `w`,
stopping at the first revert. -/
def completeAll (s : ContractState) (w : Nat) :
    List (Nat × String) → Except DErr ContractState
  | [] => .ok s
  | (tid, r) :: rest =>
      match submitResult s w tid r with
      | .ok s' => completeAll s' w rest
      | .error e => .error e

/-- Effects of one successful `submitResult` used for balance accounting:
`taskCount` is unchanged, the caller's balance grows by exactly the task's
escrowed reward, other tasks are untouched and other balances are
untouched. -/
theorem submitResult_effects {s s' : ContractState} {w tid : Nat} {r : String}
    (h : submitResult s w tid r = .ok s') :
    s'.taskCount = s.taskCount ∧
    s'.balances w = s.balances w + (s.tasks tid).reward ∧
    (∀ j, j ≠ tid → s'.tasks j = s.tasks j) ∧
    (∀ a, a ≠ w → s'.balances a = s.balances a) := by
  obtain ⟨hle, hw, hc, rfl⟩ := submitResult_ok_inv h
  refine ⟨rfl, ?_, fun j hj => ?_, fun a ha => ?_⟩
  · by_cases hr : (s.tasks tid).reward > 0
    · simp [hr]
    · simp only [hr, if_false]
      omega
  · simp only
    rw [Function.update_noteq hj]
  · by_cases hr : (s.tasks tid).reward > 0
    · simp only [hr, if_true]
      rw [Function.update_noteq ha]
    · simp [hr]

/-- Claim C4.  Completing `N` distinct tasks all assigned to worker `w`
succeeds and accrues exactly the sum of their escrowed rewards onto `w`'s
balance; when the resulting balance is positive, one `withdrawBalance` zeroes
it exactly (never partially) and a second `withdrawBalance` with no
intervening completion reverts with "No balance to withdraw". -/
theorem balance_conservation :
    ∀ (jobs : List (Nat × String)) (s : ContractState) (w : Nat),
      (∀ j ∈ jobs, j.1 ≤ s.taskCount ∧ (s.tasks j.1).worker = w ∧
        (s.tasks j.1).completed = false) →
      (jobs.map Prod.fst).Nodup →
      ∃ s₁, completeAll s w jobs = .ok s₁ ∧
        s₁.balances w = s.balances w +
          (jobs.map (fun j => (s.tasks j.1).reward)).sum ∧
        (0 < s.balances w +
            (jobs.map (fun j => (s.tasks j.1).reward)).sum →
          ∃ s₂, withdrawBalance s₁ w = .ok s₂ ∧ s₂.balances w = 0 ∧
            withdrawBalance s₂ w = .error .noBalance) := by
  have hwithdraw : ∀ (s₁ : ContractState) (w : Nat), 0 < s₁.balances w →
      ∃ s₂, withdrawBalance s₁ w = .ok s₂ ∧ s₂.balances w = 0 ∧
        withdrawBalance s₂ w = .error .noBalance := by
    intro s₁ w h
    refine ⟨{ s₁ with balances := Function.update s₁.balances w 0 }, ?_, by simp, ?_⟩
    · simp only [withdrawBalance]
      rw [if_neg (not_not_intro h)]
    · simp [withdrawBalance]
  intro jobs
  induction jobs with
  | nil =>
      intro s w _ _
      exact ⟨s, rfl, by simp, fun hpos => by
        simpa using hwithdraw s w (by simpa using hpos)⟩
  | cons job rest ih =>
      intro s w hjobs hnodup
      obtain ⟨tid, r⟩ := job
      obtain ⟨hle0, hw0, hc0⟩ := hjobs (tid, r) (List.mem_cons_self _ _)
      have hle : tid ≤ s.taskCount := hle0
      have hw : (s.tasks tid).worker = w := hw0
      have hc : (s.tasks tid).completed = false := hc0
      have hok := submitResult_succeeds w r hle hw hc
      obtain ⟨hcount, hbal, htasks, _⟩ := submitResult_effects hok
      have hnotin : tid ∉ rest.map Prod.fst := (List.nodup_cons.mp hnodup).1
      have hne : ∀ j ∈ rest, j.1 ≠ tid := by
        intro j hj hj1
        exact hnotin (hj1 ▸ List.mem_map_of_mem Prod.fst hj)
      set s₁ : ContractState := { s with tasks := Function.update s.tasks tid ({ s.tasks tid with result := r, completed := true }), balances := if (s.tasks tid).reward > 0 then Function.update s.balances w (s.balances w + (s.tasks tid).reward) else s.balances } with hs₁
      have hrest : ∀ j ∈ rest, j.1 ≤ s₁.taskCount ∧
          (s₁.tasks j.1).worker = w ∧ (s₁.tasks j.1).completed = false := by
        intro j hj
        obtain ⟨h1, h2, h3⟩ := hjobs j (List.mem_cons_of_mem _ hj)
        rw [hcount, htasks j.1 (hne j hj)]
        exact ⟨h1, h2, h3⟩
      obtain ⟨sf, hrun, hsum, hwd⟩ :=
        ih s₁ w hrest (List.nodup_cons.mp hnodup).2
      have hmap : rest.map (fun j => (s₁.tasks j.1).reward) =
          rest.map (fun j => (s.tasks j.1).reward) :=
        List.map_congr_left (fun j hj => by rw [htasks j.1 (hne j hj)])
      refine ⟨sf, ?_, ?_, ?_⟩
      · simp only [completeAll, hok]
        exact hrun
      · rw [hsum, hmap, hbal]
        simp only [List.map_cons, List.sum_cons]
        omega
      · intro hpos
        apply hwd
        rw [hmap, hbal]
        simp only [List.map_cons, List.sum_cons] at hpos
        omega

/-- Witness for C4: worker 7 completes tasks 1 and 2 (rewards 5 and 6) of a
two-task registry; the accrued balance is 5 + 6, a withdrawal zeroes it and
a second withdrawal reverts. -/
theorem balance_conservation_witness :
    ∃ s₁, completeAll (applyOps initState
        [Op.submitTask 10 "a" "p" 5, Op.submitTask 11 "b" "q" 6,
         Op.claimTask 7 1, Op.claimTask 7 2]) 7 [(1, "r1"), (2, "r2")] =
        .ok s₁ ∧
      s₁.balances 7 = (applyOps initState
        [Op.submitTask 10 "a" "p" 5, Op.submitTask 11 "b" "q" 6,
         Op.claimTask 7 1, Op.claimTask 7 2]).balances 7 +
        ([(1, "r1"), (2, "r2")].map (fun j => ((applyOps initState
          [Op.submitTask 10 "a" "p" 5, Op.submitTask 11 "b" "q" 6,
           Op.claimTask 7 1, Op.claimTask 7 2]).tasks j.1).reward)).sum ∧
      (0 < (applyOps initState
        [Op.submitTask 10 "a" "p" 5, Op.submitTask 11 "b" "q" 6,
         Op.claimTask 7 1, Op.claimTask 7 2]).balances 7 +
        ([(1, "r1"), (2, "r2")].map (fun j => ((applyOps initState
          [Op.submitTask 10 "a" "p" 5, Op.submitTask 11 "b" "q" 6,
           Op.claimTask 7 1, Op.claimTask 7 2]).tasks j.1).reward)).sum →
        ∃ s₂, withdrawBalance s₁ 7 = .ok s₂ ∧ s₂.balances 7 = 0 ∧
          withdrawBalance s₂ 7 = .error .noBalance) := by
  exact balance_conservation [(1, "r1"), (2, "r2")]
    (applyOps initState
      [Op.submitTask 10 "a" "p" 5, Op.submitTask 11 "b" "q" 6,
       Op.claimTask 7 1, Op.claimTask 7 2]) 7 (by decide) (by decide)

/-- Congruence for suffix windows: equal lengths and equal start indices give
equal windows. -/
theorem map_window_congr (f : Nat → Task) {n m a b : Nat} (hn : n = m)
    (hab : a = b) :
    (List.range n).map (fun i => f (a + i)) =
      (List.range m).map (fun i => f (b + i)) := by
  subst hn
  subst hab
  rfl

/-- `getLatestTasks(k)` is the window of the `min k taskCount` highest slots
`taskCount - min k taskCount + 1, ..., taskCount`, in ascending order. -/
theorem getLatestTasks_eq (s : ContractState) (k : Nat) :
    getLatestTasks s k =
      (List.range (min k s.taskCount)).map
        (fun i => s.tasks (s.taskCount - min k s.taskCount + 1 + i)) := by
  simp only [getLatestTasks]
  by_cases h1 : s.taskCount > k
  · rw [if_pos h1]
    by_cases hk : k = 0
    · subst hk
      rw [if_neg (by omega)]
      simp
    · rw [if_pos (by omega)]
      exact map_window_congr s.tasks (by omega) (by omega)
  · rw [if_neg h1]
    by_cases h0 : s.taskCount = 0
    · rw [if_neg (by omega)]
      have hm : min k s.taskCount = 0 := by omega
      simp [hm]
    · rw [if_pos (by omega)]
      exact map_window_congr s.tasks (by omega) (by omega)

/-- Claim C5.  `getLatestTasks(k)` on a registry with `n` tasks returns
exactly `min(k, n)` tasks — the slots `n - min(k,n) + 1, ..., n` in ascending
order; in reachable states their `id` fields are exactly those ids; with 3
tasks and `k = 2` the ids are `[2, 3]`, and with 1 task and `k = 5` they are
`[1]`. -/
theorem getLatestTasks_window :
    (∀ (s : ContractState) (k : Nat),
      getLatestTasks s k =
        (List.range (min k s.taskCount)).map
          (fun i => s.tasks (s.taskCount - min k s.taskCount + 1 + i))) ∧
    (∀ (s : ContractState) (k : Nat),
      (getLatestTasks s k).length = min k s.taskCount) ∧
    (∀ (s : ContractState) (k : Nat), Reachable s →
      (getLatestTasks s k).map Task.id =
        (List.range (min k s.taskCount)).map
          (fun i => s.taskCount - min k s.taskCount + 1 + i)) ∧
    (getLatestTasks (applyOps initState
      [Op.submitTask 10 "a" "p" 1, Op.submitTask 10 "b" "q" 2,
       Op.submitTask 10 "c" "u" 3]) 2).map Task.id = [2, 3] ∧
    (getLatestTasks (applyOps initState [Op.submitTask 10 "a" "p" 1]) 5).map
      Task.id = [1] := by
  refine ⟨getLatestTasks_eq, fun s k => ?_, fun s k hreach => ?_,
    by decide, by decide⟩
  · rw [getLatestTasks_eq]
    simp
  · have hinv := reachable_inv hreach
    rw [getLatestTasks_eq, List.map_map]
    apply List.map_congr_left
    intro i hi
    have hi2 := List.mem_range.mp hi
    exact hinv.2 _ (by omega) (by omega)

/-- Witness for C5: the id-window equation instantiated at the reachable
three-task registry with `k = 2`. -/
theorem getLatestTasks_window_witness :
    (getLatestTasks (applyOps initState
      [Op.submitTask 10 "a" "p" 1, Op.submitTask 10 "b" "q" 2,
       Op.submitTask 10 "c" "u" 3]) 2).map Task.id =
      (List.range (min 2 (applyOps initState
        [Op.submitTask 10 "a" "p" 1, Op.submitTask 10 "b" "q" 2,
         Op.submitTask 10 "c" "u" 3]).taskCount)).map
        (fun i => (applyOps initState
          [Op.submitTask 10 "a" "p" 1, Op.submitTask 10 "b" "q" 2,
           Op.submitTask 10 "c" "u" 3]).taskCount -
          min 2 (applyOps initState
            [Op.submitTask 10 "a" "p" 1, Op.submitTask 10 "b" "q" 2,
             Op.submitTask 10 "c" "u" 3]).taskCount + 1 + i) := by
  exact getLatestTasks_window.2.2.1 _ 2 ⟨_, rfl⟩

/-- Consecutive windows are chains of successors. -/
theorem chain_succ_range' (n k : Nat) :
    List.Chain' (fun a b => b = a + 1) (List.range' n k) := by
  induction k generalizing n with
  | zero => simp
  | succ m ih =>
      rw [List.range'_succ n m 1]
      cases m with
      | zero => simp
      | succ m' =>
          rw [List.range'_succ (n + 1) m' 1]
          exact List.Chain'.cons rfl (by
            have := ih (n + 1)
            rwa [List.range'_succ (n + 1) m' 1] at this)

/-- Claim C6.  From any seeded allocator state, `k` serialised
`_getNextNonce` calls return exactly `n, n+1, ..., n+k-1` — strictly
increasing, no repeats, no gaps (each value is the predecessor plus one) —
and leave the counter at `n + k`; after `_refreshNonce` fetches the
authoritative transaction count `v`, the next allocated value is exactly `v`,
hence `≥ v`.  (The promise-chain mutex in `_getNextNonce` serialises
overlapping calls, so the serialised model covers concurrent invocation.) -/
theorem nonce_allocation :
    (∀ (c n k lp : Nat) (ct : List Nat),
      allocSeq c ⟨lp, ct, some n⟩ k =
        (List.range' n k, ⟨lp, ct, some (n + k)⟩)) ∧
    (∀ (c n k lp : Nat) (ct : List Nat),
      List.Chain' (fun a b => b = a + 1)
        (allocSeq c ⟨lp, ct, some n⟩ k).1) ∧
    (∀ (c v : Nat) (st : AgentState),
      (getNextNonce c (refreshNonce v st)).1 = v ∧
      v ≤ (getNextNonce c (refreshNonce v st)).1) := by
  have hseq : ∀ (c k n lp : Nat) (ct : List Nat),
      allocSeq c ⟨lp, ct, some n⟩ k =
        (List.range' n k, ⟨lp, ct, some (n + k)⟩) := by
    intro c k
    induction k with
    | zero => intro n lp ct; simp [allocSeq]
    | succ m ih =>
        intro n lp ct
        simp only [allocSeq, getNextNonce, ih (n + 1), List.range'_succ n m 1]
        have hadd : n + 1 + m = n + (m + 1) := by omega
        rw [hadd]
  refine ⟨fun c n k lp ct => hseq c k n lp ct, fun c n k lp ct => ?_, ?_⟩
  · rw [hseq c k n lp ct]
    exact chain_succ_range' n k
  · intro c v st
    exact ⟨rfl, le_refl v⟩

/-- `attemptClaimTask` never touches the high-water mark. -/
theorem attemptClaimTask_lastProcessed (env : Env) (st : AgentState)
    (tid : Nat) :
    (attemptClaimTask env st tid).1.lastProcessedTaskId =
      st.lastProcessedTaskId := by
  by_cases hb : env.balanceWei < claimThresholdWei
  · simp [attemptClaimTask, hb]
  · obtain ⟨lp, ct, nn⟩ := st
    cases nn <;> cases henv : env.claimOutcome <;>
      simp [attemptClaimTask, hb, getNextNonce, refreshNonce, henv]

/-- `submitTaskResult` never touches the high-water mark. -/
theorem submitTaskResult_lastProcessed (env : Env) (st : AgentState)
    (tid : Nat) :
    (submitTaskResult env st tid).1.lastProcessedTaskId =
      st.lastProcessedTaskId := by
  obtain ⟨lp, ct, nn⟩ := st
  cases nn <;> cases henv : env.submitOutcome <;>
    simp [submitTaskResult, getNextNonce, refreshNonce, henv]

/-- `executeClaimedTask` never touches the high-water mark. -/
theorem executeClaimedTask_lastProcessed (env : Env) (st : AgentState)
    (tid : Nat) :
    (executeClaimedTask env st tid).1.lastProcessedTaskId =
      st.lastProcessedTaskId := by
  cases he : env.execOk <;>
    simp [executeClaimedTask, he, submitTaskResult_lastProcessed]

/-- Counterexample to C7 as stated: on a tick where the claim transaction
for fresh task 1 fails (here: a generic failure; the task is not recorded in
`claimedTasks`, so the claim did not succeed), the loop still advances
`lastProcessedTaskId` to 1, and on the next tick the task is skipped with no
action — not re-inspected. -/
theorem lastProcessed_advances_past_failed_claim :
    processTask 7
        (fun _ => ⟨claimThresholdWei, 5, defaultTask,
          TxOutcome.failed, TxOutcome.failed, true⟩)
        ⟨0, [], some 5⟩ ⟨1, 10, 0, "f", "x", "", false, 5⟩ =
      (⟨1, [], some 6⟩, [AgentAction.claimTx 1 5]) ∧
    processTask 7
        (fun _ => ⟨claimThresholdWei, 5, defaultTask,
          TxOutcome.failed, TxOutcome.failed, true⟩)
        ⟨1, [], some 6⟩ ⟨1, 10, 0, "f", "x", "", false, 5⟩ =
      (⟨1, [], some 6⟩, []) := by
  constructor <;> rfl

/-- Claim C7 (amended).  The poll loop advances `lastProcessedTaskId` to
`max(lastProcessedTaskId, task.id)` for every inspected task with
`id > lastProcessedTaskId` that is not in `claimedTasks` — including tasks
whose claim attempt failed this tick, which are therefore skipped on later
ticks rather than re-inspected; only tasks already in `claimedTasks` are
left unadvanced (and skipped); the mark never decreases. -/
theorem lastProcessed_advance :
    ∀ (self : Nat) (env : Nat → Env) (st : AgentState) (t : Task),
      (st.lastProcessedTaskId < t.id → t.id ∉ st.claimedTasks →
        (processTask self env st t).1.lastProcessedTaskId =
          max st.lastProcessedTaskId t.id) ∧
      (st.lastProcessedTaskId < t.id → t.id ∈ st.claimedTasks →
        ¬ (t.completed = true ∨ (t.worker ≠ 0 ∧ t.worker ≠ self)) →
        processTask self env st t = (st, [])) ∧
      st.lastProcessedTaskId ≤
        (processTask self env st t).1.lastProcessedTaskId := by
  intro self env st t
  have hbody : t.id ∉ st.claimedTasks →
      ¬ t.id ≤ st.lastProcessedTaskId →
      ¬ (t.completed = true ∨ (t.worker ≠ 0 ∧ t.worker ≠ self)) →
      (processTask self env st t).1.lastProcessedTaskId =
        max st.lastProcessedTaskId t.id := by
    intro hnin h1 h2
    simp only [processTask, if_neg h1, if_neg h2, if_neg hnin]
    by_cases h4 : t.worker = 0 ∧ t.completed = false
    · rw [if_pos h4]
      by_cases h5 : t.worker = self ∧ t.completed = false
      · rw [if_pos h5]
        simp only [executeClaimedTask_lastProcessed,
          attemptClaimTask_lastProcessed]
      · rw [if_neg h5]
        simp only [attemptClaimTask_lastProcessed]
    · rw [if_neg h4]
      by_cases h5 : t.worker = self ∧ t.completed = false
      · rw [if_pos h5]
        simp only [executeClaimedTask_lastProcessed]
      · rw [if_neg h5]
  refine ⟨fun hlt hnin => ?_, fun hlt hin hother => ?_, ?_⟩
  · by_cases h2 : t.completed = true ∨ (t.worker ≠ 0 ∧ t.worker ≠ self)
    · simp only [processTask,
        if_neg (by omega : ¬ t.id ≤ st.lastProcessedTaskId), if_pos h2]
    · exact hbody hnin (by omega) h2
  · simp only [processTask, if_neg (by omega : ¬ t.id ≤ st.lastProcessedTaskId),
      if_neg hother, if_pos hin]
  · by_cases h1 : t.id ≤ st.lastProcessedTaskId
    · simp [processTask, h1]
    · by_cases h2 : t.completed = true ∨ (t.worker ≠ 0 ∧ t.worker ≠ self)
      · simp only [processTask, if_neg h1, if_pos h2]
        exact le_sup_left
      · by_cases h3 : t.id ∈ st.claimedTasks
        · simp only [processTask, if_neg h1, if_neg h2, if_pos h3]
          exact le_refl _
        · rw [hbody h3 h1 h2]
          exact le_sup_left

/-- Witness for C7 (amended): the advance equation at the concrete failing
tick of the counterexample input. -/
theorem lastProcessed_advance_witness :
    0 < 1 ∧ (1 : Nat) ∉ ([] : List Nat) ∧
    (processTask 7
        (fun _ => ⟨claimThresholdWei, 5, defaultTask,
          TxOutcome.failed, TxOutcome.failed, true⟩)
        ⟨0, [], some 5⟩
        ⟨1, 10, 0, "f", "x", "", false, 5⟩).1.lastProcessedTaskId =
      max 0 1 := by
  refine ⟨by decide, by decide, ?_⟩
  exact (lastProcessed_advance 7
    (fun _ => ⟨claimThresholdWei, 5, defaultTask,
      TxOutcome.failed, TxOutcome.failed, true⟩)
    ⟨0, [], some 5⟩ ⟨1, 10, 0, "f", "x", "", false, 5⟩).1
    (by decide) (by decide)

/-- Claim C8, evaluated at the failing input.  After task 1 (assigned to this
agent, worker 7) hits a nonce error during result submission, the agent does
resynchronise the nonce (5 → chain value 3) and does keep task 1 in
`claimedTasks` — but the next poll tick never retries the submission: the
task is skipped by the high-water-mark check, and even below the mark the
`claimedTasks` guard skips it before the execute branch, so no `submitResult`
transaction is ever sent again, contradicting the code's own "Will retry
result submission ... in next round" comment and the spec. -/
theorem submit_retry_never_happens :
    submitTaskResult
        ⟨claimThresholdWei, 3, ⟨1, 10, 7, "f", "x", "", false, 5⟩,
          TxOutcome.failed, TxOutcome.nonceError, true⟩
        ⟨1, [1], some 5⟩ 1 =
      (⟨1, [1], some 3⟩, [AgentAction.submitTx 1 5]) ∧
    checkForAvailableTasks 7
        (fun _ => ⟨claimThresholdWei, 3, ⟨1, 10, 7, "f", "x", "", false, 5⟩,
          TxOutcome.failed, TxOutcome.nonceError, true⟩)
        ⟨1, [1], some 3⟩ [⟨1, 10, 7, "f", "x", "", false, 5⟩] =
      (⟨1, [1], some 3⟩, []) ∧
    checkForAvailableTasks 7
        (fun _ => ⟨claimThresholdWei, 3, ⟨1, 10, 7, "f", "x", "", false, 5⟩,
          TxOutcome.failed, TxOutcome.nonceError, true⟩)
        ⟨0, [1], some 3⟩ [⟨1, 10, 7, "f", "x", "", false, 5⟩] =
      (⟨0, [1], some 3⟩, []) := by
  refine ⟨rfl, rfl, rfl⟩

/-- Counterexample to C9 as stated: with sufficient wallet balance, the agent
submits the claim transaction even though the registry already shows the task
claimed by worker 9 at submission time (`registryTask.worker = 9`), because
`attemptClaimTask` performs no fresh registry read before sending. -/
theorem claimTx_sent_despite_registry_claimed :
    (attemptClaimTask
        ⟨claimThresholdWei, 5, ⟨1, 10, 9, "f", "x", "", false, 5⟩,
          TxOutcome.failed, TxOutcome.failed, true⟩
        ⟨0, [], some 5⟩ 1).2 = [AgentAction.claimTx 1 5] := by
  rfl

/-- Claim C9 (amended).  Before submitting a claim, `attemptClaimTask` checks
only the agent's spendable balance (below 0.005 ether it aborts without
submitting); with sufficient balance it always sends the claim transaction,
and its behaviour is independent of the registry's state of the task at
submission time (no fresh re-check).  The claimed/completed pre-check is the
snapshot check in `checkForAvailableTasks`: a task whose snapshot shows it
completed or claimed by another worker is advanced past with no transaction
submitted. -/
theorem attemptClaim_prechecks :
    (∀ (env : Env) (st : AgentState) (tid : Nat),
      env.balanceWei < claimThresholdWei →
      attemptClaimTask env st tid = (st, [])) ∧
    (∀ (env : Env) (st : AgentState) (tid : Nat),
      ¬ env.balanceWei < claimThresholdWei →
      (attemptClaimTask env st tid).2 =
        [AgentAction.claimTx tid (getNextNonce env.chainNonce st).1]) ∧
    (∀ (env : Env) (st : AgentState) (tid : Nat) (t' : Task),
      attemptClaimTask { env with registryTask := t' } st tid =
        attemptClaimTask env st tid) ∧
    (∀ (self : Nat) (env : Nat → Env) (st : AgentState) (t : Task),
      st.lastProcessedTaskId < t.id →
      (t.completed = true ∨ (t.worker ≠ 0 ∧ t.worker ≠ self)) →
      processTask self env st t =
        ({ st with lastProcessedTaskId := max st.lastProcessedTaskId t.id }, [])) := by
  refine ⟨fun env st tid h => ?_, fun env st tid h => ?_,
    fun env st tid t' => rfl, fun self env st t hlt h2 => ?_⟩
  · simp [attemptClaimTask, h]
  · cases henv : env.claimOutcome <;>
      simp [attemptClaimTask, h, henv]
  · simp only [processTask,
      if_neg (by omega : ¬ t.id ≤ st.lastProcessedTaskId), if_pos h2]

/-- Witness for C9 (amended) at concrete inputs: an underfunded agent aborts
without submitting; a funded agent emits the claim transaction; the snapshot
pre-check skips a task claimed by worker 9 while advancing the mark. -/
theorem attemptClaim_prechecks_witness :
    (0 : Nat) < claimThresholdWei ∧
    attemptClaimTask
        ⟨0, 5, defaultTask, TxOutcome.confirmed, TxOutcome.confirmed, true⟩
        ⟨0, [], some 5⟩ 1 = (⟨0, [], some 5⟩, []) ∧
    (attemptClaimTask
        ⟨claimThresholdWei, 5, defaultTask, TxOutcome.confirmed,
          TxOutcome.confirmed, true⟩ ⟨0, [], some 5⟩ 1).2 =
      [AgentAction.claimTx 1
        (getNextNonce 5 (⟨0, [], some 5⟩ : AgentState)).1] ∧
    processTask 7
        (fun _ => ⟨claimThresholdWei, 5, defaultTask, TxOutcome.confirmed,
          TxOutcome.confirmed, true⟩)
        ⟨0, [], some 5⟩ ⟨2, 10, 9, "f", "x", "", false, 5⟩ =
      (⟨max 0 2, [], some 5⟩, []) := by
  refine ⟨by decide, ?_, ?_, ?_⟩
  · exact attemptClaim_prechecks.1 _ _ 1 (by decide)
  · exact attemptClaim_prechecks.2.1 _ _ 1 (by decide)
  · exact attemptClaim_prechecks.2.2.2 7
      (fun _ => ⟨claimThresholdWei, 5, defaultTask, TxOutcome.confirmed,
        TxOutcome.confirmed, true⟩)
      ⟨0, [], some 5⟩ ⟨2, 10, 9, "f", "x", "", false, 5⟩ (by decide)
      (by decide)

end DeAsync
